import Mathlib

/-!
# DolphinQt: `AspectRatioLayout` and `CheckableMenu`

A shallow embedding of

* `Source/Core/DolphinQt/TAS/TASInputWindow.h` (class `AspectRatioLayout`), and
* `Source/Core/DolphinQt/QtUtils/CheckableMenu.cpp` (class `CheckableMenu`),

followed by the properties established for them.

Conventions of the embedding.

* `int` is `ℤ`.  The integer arithmetic of the source stays within 32 bits on the inputs the
  theorems are about; the one place where a value can leave the range of `int`, the
  conversion of a `float`, is modelled with that range (`INT_MIN`, `INT_MAX`, `InIntRange`,
  `truncToInt`).
* `float` is IEEE binary32.  A finite `float` is the rational it denotes; `toFloat` rounds a
  rational to the nearest binary32 value (ties to even, subnormals included), which is what
  the conversion of an `int` and every float multiplication and division do to their exact
  result.  Infinities and NaN are not values of the model, and the exponent has no upper
  limit: every float of the source is converted to `int` at once, and a float that large is
  out of the range of `int` either way.  A statement about every ratio is proved for every
  rational, the binary32 values among them.
* The conversion of a `float` to `int` truncates toward zero when the truncated value is an
  `int` (`InIntRange`).  Otherwise the language leaves the behaviour undefined; `truncToInt`
  then returns `INT_MIN`, which is what the conversion instruction of x86-64 delivers.  Every
  theorem about the value of a conversion carries the hypothesis that it is in range, and
  so does not depend on that choice.
* Qt value classes (`QSize`, `QRect`) are embedded with the representation Qt gives them.
* Qt behaviour that the source only triggers is recorded as an observable effect: the calls
  of callbacks, the emissions of signals, the hand-over of an event to the default `QMenu`
  handler.  `hide()` acts on the visibility of the objects of the parent chain (`hideAt`).
-/

namespace DolphinQt

/-! ## Arithmetic of the host language -/

/-- Nearest integer to `q`, a tie going to the even neighbour. -/
def roundHalfEven (q : ℚ) : ℤ :=
  if q - ⌊q⌋ < 1 / 2 then ⌊q⌋
  else if 1 / 2 < q - ⌊q⌋ then ⌊q⌋ + 1
  else if ⌊q⌋ % 2 = 0 then ⌊q⌋ else ⌊q⌋ + 1

/-- Exponent `e` of the binade of `q`, `2 ^ e ≤ |q| < 2 ^ (e + 1)`, and at least `-126`: smaller
numbers are subnormal and share the exponent `-126`. -/
def floatExponent (q : ℚ) : ℤ := max (Int.log 2 |q|) (-126)

/-- Spacing of the binary32 values around `q`: a significand has 24 bits. -/
def ulp (q : ℚ) : ℚ := (2 : ℚ) ^ (floatExponent q - 23)

/-- Rounding of an exact result to `float` (IEEE binary32, round to nearest, ties to even). -/
def toFloat (q : ℚ) : ℚ := roundHalfEven (q / ulp q) * ulp q

/-- The least value of `int` (32 bits). -/
def INT_MIN : ℤ := -2147483648

/-- The greatest value of `int` (32 bits). -/
def INT_MAX : ℤ := 2147483647

/-- Truncation toward zero: the fractional part is discarded. -/
def truncate (q : ℚ) : ℤ := if 0 ≤ q then ⌊q⌋ else ⌈q⌉

/-- The `float` value `q` can be converted to `int`: its truncation is a value of `int`.  For
any other value the conversion has undefined behaviour. -/
def InIntRange (q : ℚ) : Prop := INT_MIN ≤ truncate q ∧ truncate q ≤ INT_MAX

instance (q : ℚ) : Decidable (InIntRange q) := by
  unfold InIntRange
  infer_instance

/-- Conversion of a `float` to `int` (`static_cast<int>` or the implicit conversion of an
initialisation): truncation toward zero for a value in range.  Out of range the behaviour is
undefined; the value taken here, `INT_MIN`, is the one the x86-64 conversion instruction
delivers. -/
def truncToInt (q : ℚ) : ℤ := if InIntRange q then truncate q else INT_MIN

/-- The expression `i * f` for an `int i` and a `float f`: `i` is converted to `float`, the
product is a `float`. -/
def mulIntFloat (i : ℤ) (f : ℚ) : ℚ := toFloat (toFloat i * f)

/-- The expression `i / f` for an `int i` and a `float f` other than zero (a division by zero
gives an infinity or a NaN, which the model does not hold). -/
def divIntFloat (i : ℤ) (f : ℚ) : ℚ := toFloat (toFloat i / f)

/-- Modelled from the spec: the macro `ASSERT` of `Common/Assert.h`, a header of the repository
outside the two files embedded here.  A precondition is "enforced by assertion": what follows
a failed assertion is not run, which `none` stands for. -/
def ASSERT (condition : Bool) : Option Unit := if condition then some () else none

/-! ## Qt value classes -/

/-- The Qt class `QSize`: a width and a height. -/
structure QSize where
  wd : ℤ
  ht : ℤ
  deriving DecidableEq, Repr

namespace QSize

/-- The value `QSize{}`: the default-constructed size, which Qt calls invalid, both fields
`-1`. -/
def invalid : QSize := ⟨-1, -1⟩

/-- The method `QSize::expandedTo`: the element-wise maximum. -/
def expandedTo (s other : QSize) : QSize := ⟨max s.wd other.wd, max s.ht other.ht⟩

end QSize

/-- The Qt class `QRect`: the coordinates of the top-left and of the bottom-right pixel. -/
structure QRect where
  x1 : ℤ
  y1 : ℤ
  x2 : ℤ
  y2 : ℤ
  deriving DecidableEq, Repr

namespace QRect

/-- The value `QRect{}`: the null rectangle, of width and height `0`. -/
def null : QRect := ⟨0, 0, -1, -1⟩

/-- The constructor `QRect(x, y, width, height)`. -/
def ofSize (x y w h : ℤ) : QRect := ⟨x, y, x + w - 1, y + h - 1⟩

/-- The method `QRect::width`. -/
def width (r : QRect) : ℤ := r.x2 - r.x1 + 1

/-- The method `QRect::height`. -/
def height (r : QRect) : ℤ := r.y2 - r.y1 + 1

/-- The method `QRect::adjusted`: the four offsets are added to the four coordinates. -/
def adjusted (r : QRect) (dx1 dy1 dx2 dy2 : ℤ) : QRect :=
  ⟨r.x1 + dx1, r.y1 + dy1, r.x2 + dx2, r.y2 + dy2⟩

end QRect

/-! ## `AspectRatioLayout` -/

/-- A child `QLayoutItem`: `ident` tells the children apart, `minimumSize` is what the item's
`minimumSize()` returns and `geometry` the rectangle last passed to its `setGeometry`. -/
structure QLayoutItem where
  ident : ℕ
  minimumSize : QSize
  geometry : QRect
  deriving DecidableEq, Repr

/-- The members of `AspectRatioLayout`; `m_rect` is the rectangle kept by the base class
`QLayout::setGeometry`. -/
structure AspectRatioLayout where
  m_items : List QLayoutItem
  m_minimum_size : QSize
  m_default_size : QSize
  m_aspect_ratio : ℚ
  m_rect : QRect
  deriving DecidableEq, Repr

namespace AspectRatioLayout

/-- The constructor `AspectRatioLayout(aspect_ratio, parent)`: the members are initialised and
the body asserts `aspect_ratio != 0`; `none` when the assertion fails. -/
def new (aspect_ratio : ℚ) : Option AspectRatioLayout := do
  ASSERT (aspect_ratio != 0)
  pure { m_items := [], m_minimum_size := QSize.invalid, m_default_size := QSize.invalid,
         m_aspect_ratio := aspect_ratio, m_rect := QRect.null }

/-- The method `addItem`. -/
def addItem (l : AspectRatioLayout) (item : QLayoutItem) : AspectRatioLayout :=
  { l with m_items := l.m_items ++ [item] }

/-- The method `count`. -/
def count (l : AspectRatioLayout) : ℤ := l.m_items.length

/-- The method `itemAt`; `none` is the null pointer. -/
def itemAt (l : AspectRatioLayout) (index : ℤ) : Option QLayoutItem :=
  if index < 0 ∨ index ≥ l.count then none
  else l.m_items[index.toNat]?

/-- The method `takeAt`: the item returned (`none` is the null pointer) and the layout
afterwards. -/
def takeAt (l : AspectRatioLayout) (index : ℤ) : Option QLayoutItem × AspectRatioLayout :=
  if index < 0 ∨ index ≥ l.count then (none, l)
  else (l.m_items[index.toNat]?, { l with m_items := l.m_items.eraseIdx index.toNat })

/-- The method `setMinimumSize`. -/
def setMinimumSize (l : AspectRatioLayout) (minimum_size : QSize) : AspectRatioLayout :=
  let minimum_width := truncToInt (mulIntFloat minimum_size.ht l.m_aspect_ratio)
  let minimum_height := truncToInt (divIntFloat minimum_size.wd l.m_aspect_ratio)
  { l with m_minimum_size := minimum_size.expandedTo ⟨minimum_width, minimum_height⟩ }

/-- The method `setDefaultSize`. -/
def setDefaultSize (l : AspectRatioLayout) (default_size : QSize) : AspectRatioLayout :=
  let default_width := truncToInt (mulIntFloat default_size.ht l.m_aspect_ratio)
  let default_height := truncToInt (divIntFloat default_size.wd l.m_aspect_ratio)
  { l with m_default_size := default_size.expandedTo ⟨default_width, default_height⟩ }

/-- The method `setAspectRatio`. -/
def setAspectRatio (l : AspectRatioLayout) (aspect_ratio : ℚ) : AspectRatioLayout :=
  let l1 := { l with m_aspect_ratio := aspect_ratio }
  let l2 := l1.setMinimumSize l1.m_minimum_size
  l2.setDefaultSize l2.m_default_size

/-- The method `heightForWidth`. -/
def heightForWidth (l : AspectRatioLayout) (width : ℤ) : ℤ :=
  truncToInt (divIntFloat width l.m_aspect_ratio)

/-- The method `sizeHint`. -/
def sizeHint (l : AspectRatioLayout) : QSize := l.m_default_size

/-- The method `minimumSize`: the minimum size of the first child, `QSize{}` without children. -/
def minimumSize (l : AspectRatioLayout) : QSize :=
  match l.m_items with
  | [] => QSize.invalid
  | item :: _ => item.minimumSize

/-- The local variables `width` and `height` of `setGeometry` once both have been clamped. -/
def fittedSize (l : AspectRatioLayout) (rect : QRect) : QSize :=
  let width := min rect.width (truncToInt (mulIntFloat rect.height l.m_aspect_ratio))
  let width := max width l.minimumSize.wd
  let height := min rect.height (truncToInt (divIntFloat rect.width l.m_aspect_ratio))
  let height := max height l.minimumSize.ht
  ⟨width, height⟩

/-- The method `setGeometry`: the base class keeps the rectangle; without children nothing
else happens; otherwise the first child gets the fitted rectangle and every other child the
null rectangle. -/
def setGeometry (l : AspectRatioLayout) (rect : QRect) : AspectRatioLayout :=
  match l.m_items with
  | [] => { l with m_rect := rect }
  | item :: others =>
    let size := l.fittedSize rect
    let x_offset := (rect.width - size.wd).tdiv 2
    let y_offset := (rect.height - size.ht).tdiv 2
    { l with
      m_rect := rect
      m_items :=
        { item with geometry := rect.adjusted x_offset y_offset (-x_offset) (-y_offset) } ::
          others.map fun other => { other with geometry := QRect.null } }

/-- A size agrees with the aspect ratio `ratio` as far as whole pixels allow: the height is
the width divided by the ratio, in `float`, and truncated, or the width is the height times
the ratio, in `float`, and truncated. -/
def MatchesRatio (ratio : ℚ) (s : QSize) : Prop :=
  s.ht = truncate (divIntFloat s.wd ratio) ∨ s.wd = truncate (mulIntFloat s.ht ratio)

instance (ratio : ℚ) (s : QSize) : Decidable (MatchesRatio ratio s) := by
  unfold MatchesRatio
  infer_instance

/-- The setters can expand the size `s` at the ratio `ratio` within what `float` and `int`
hold: width and height are at most `2 ^ 24` in magnitude, so that their conversion to `float`
is exact, and both `height * ratio` and `width / ratio` can be converted to `int`. -/
def ExpandsInRange (ratio : ℚ) (s : QSize) : Prop :=
  |s.wd| ≤ 2 ^ 24 ∧ |s.ht| ≤ 2 ^ 24 ∧
    InIntRange (mulIntFloat s.ht ratio) ∧ InIntRange (divIntFloat s.wd ratio)

instance (ratio : ℚ) (s : QSize) : Decidable (ExpandsInRange ratio s) := by
  unfold ExpandsInRange
  infer_instance

/-- A layout of aspect ratio `2` with a single child, of minimum size `0 x 0`: what the
constructor called with `2.0` and one `addItem` leave. -/
def sample : AspectRatioLayout :=
  { m_items := [{ ident := 0, minimumSize := ⟨0, 0⟩, geometry := QRect.null }],
    m_minimum_size := QSize.invalid, m_default_size := QSize.invalid, m_aspect_ratio := 2,
    m_rect := QRect.null }

end AspectRatioLayout

/-! ## `CheckableMenu` -/

/-- What the menu makes observable to its environment: a call `toggle_function(is_selected)`
of the callback registered under the name `callback`, and an emission of the signal
`ItemToggled(label, is_selected)`. -/
inductive Effect where
  | toggle_function (callback : ℕ) (is_selected : Bool)
  | ItemToggled (label : String) (is_selected : Bool)
  deriving DecidableEq, Repr

/-- The checkable action `menu_item` created by `AddItem`, together with what the lambda
`set_selection_state` captures next to it: the label and the callback. -/
structure MenuItem where
  label : String
  checked : Bool
  toggle_function : ℕ
  deriving DecidableEq, Repr

/-- The actions of a `CheckableMenu`: the two added by the constructor, the separator, and the
items in the order of their registration. -/
inductive ActionRef where
  | select_all
  | deselect_all
  | separator
  | item (index : ℕ)
  deriving DecidableEq, Repr

/-- The state of a `CheckableMenu`.  `select_all_slots` lists the slots connected to
`m_select_all_action`'s `triggered`, in the order of connection, which is the order in which
Qt invokes them; a slot `set_selected` is named by the index of the `menu_item` it captured.
Likewise `deselect_all_slots`. -/
structure CheckableMenu where
  items : List MenuItem
  select_all_slots : List ℕ
  deselect_all_slots : List ℕ
  m_any_action_was_triggered : Bool
  deriving DecidableEq, Repr

/-- The arguments of one call of `AddItem`. -/
structure Registration where
  label : String
  is_checked : Bool
  toggle_function : ℕ
  deriving DecidableEq, Repr

/-- The key code `Qt::Key_Return`. -/
def Key_Return : ℤ := 0x01000004

/-- The key code `Qt::Key_Enter`. -/
def Key_Enter : ℤ := 0x01000005

/-- The enumeration `Qt::MouseButton`, as far as it is told apart here. -/
inductive MouseButton where
  | LeftButton
  | RightButton
  | MiddleButton
  | OtherButton
  deriving DecidableEq, Repr

/-- The event `QMouseEvent`: the button released and the position
(`event->position().toPoint()`). -/
structure QMouseEvent where
  button : MouseButton
  position : ℤ × ℤ
  deriving DecidableEq, Repr

/-- Outcome of `keyPressEvent` and `mouseReleaseEvent`: the menu afterwards, the action on
which `trigger()` was called, the effects of that call, and whether the event was handed to
the handler of the base class `QMenu`. -/
structure HandlerResult where
  menu : CheckableMenu
  triggered : Option ActionRef
  effects : List Effect
  passedToQMenu : Bool
  deriving DecidableEq, Repr

/-- An object on the parent chain of a menu: whether `qobject_cast<QMenu*>` succeeds on it,
and whether it is visible. -/
structure QObjectNode where
  isQMenu : Bool
  visible : Bool
  deriving DecidableEq, Repr

/-- A menu seen from `HideMenuTree`: its own visibility and its parent chain, the direct parent
first, as `parent()` enumerates it. -/
structure MenuTree where
  visible : Bool
  parents : List QObjectNode
  deriving DecidableEq, Repr

/-- Outcome of `leaveEvent`. -/
structure LeaveResult where
  menu : CheckableMenu
  tree : MenuTree
  passedToQMenu : Bool
  deriving DecidableEq, Repr

namespace CheckableMenu

/-- The constructor: no items yet, the flag cleared. -/
def new : CheckableMenu :=
  { items := [], select_all_slots := [], deselect_all_slots := [],
    m_any_action_was_triggered := false }

/-- The method `AddItem`: the action is appended to the menu, and one slot is connected to each
of the select-all and deselect-all actions. -/
def AddItem (m : CheckableMenu) (label : String) (is_checked : Bool) (toggle_function : ℕ) :
    CheckableMenu :=
  { m with
    items := m.items ++ [{ label := label, checked := is_checked,
                           toggle_function := toggle_function }]
    select_all_slots := m.select_all_slots ++ [m.items.length]
    deselect_all_slots := m.deselect_all_slots ++ [m.items.length] }

/-- The menu after one call of `AddItem` per registration, in their order. -/
def addItems (m : CheckableMenu) (regs : List Registration) : CheckableMenu :=
  regs.foldl (fun menu r => menu.AddItem r.label r.is_checked r.toggle_function) m

/-- The lambda `set_selection_state` of the item `index`: `setChecked`, then the callback,
then the signal. -/
def set_selection_state (m : CheckableMenu) (index : ℕ) (is_selected : Bool) :
    CheckableMenu × List Effect :=
  match m.items[index]? with
  | none => (m, [])
  | some menu_item =>
    ({ m with items := m.items.set index { menu_item with checked := is_selected } },
     [Effect.toggle_function menu_item.toggle_function is_selected,
      Effect.ItemToggled menu_item.label is_selected])

/-- Emission of `triggered` by the select-all or the deselect-all action: the connected slots
run one after the other, in the order of connection. -/
def runSlots (is_selected : Bool) : List ℕ → CheckableMenu → CheckableMenu × List Effect
  | [], m => (m, [])
  | index :: rest, m =>
    let r1 := m.set_selection_state index is_selected
    let r2 := runSlots is_selected rest r1.1
    (r2.1, r1.2 ++ r2.2)

/-- The call `QAction::trigger` on an action of the menu.  A checkable item flips its checked
state and emits `triggered` with the new state, which runs `set_selection_state`; the
select-all and deselect-all actions emit `triggered` to the slots connected by `AddItem`. -/
def trigger (m : CheckableMenu) : ActionRef → CheckableMenu × List Effect
  | ActionRef.select_all => runSlots true m.select_all_slots m
  | ActionRef.deselect_all => runSlots false m.deselect_all_slots m
  | ActionRef.separator => (m, [])
  | ActionRef.item index =>
    match m.items[index]? with
    | none => (m, [])
    | some menu_item =>
      set_selection_state
        { m with items := m.items.set index { menu_item with checked := !menu_item.checked } }
        index (!menu_item.checked)

/-- The handler `keyPressEvent`; `activeAction` is what `activeAction()` returns. -/
def keyPressEvent (m : CheckableMenu) (key : ℤ) (activeAction : Option ActionRef) :
    HandlerResult :=
  if key = Key_Enter ∨ key = Key_Return then
    match activeAction with
    | some action =>
      let r := m.trigger action
      { menu := { r.1 with m_any_action_was_triggered := true }, triggered := some action,
        effects := r.2, passedToQMenu := false }
    | none => { menu := m, triggered := none, effects := [], passedToQMenu := true }
  else { menu := m, triggered := none, effects := [], passedToQMenu := true }

/-- The handler `mouseReleaseEvent`; `actionAt` is `QMenu::actionAt`. -/
def mouseReleaseEvent (m : CheckableMenu) (event : QMouseEvent)
    (actionAt : ℤ × ℤ → Option ActionRef) : HandlerResult :=
  match actionAt event.position with
  | some action =>
    let r := m.trigger action
    { menu := { r.1 with m_any_action_was_triggered := true }, triggered := some action,
      effects := r.2, passedToQMenu := false }
  | none => { menu := m, triggered := none, effects := [], passedToQMenu := true }

/-- The loop of `HideMenuTree`: `chain` is what is left of the parent chain, `pos` the position
of its head, `top_menu` the menu found so far (`none` is the menu the walk started from). -/
def findTopMenu : List QObjectNode → ℕ → Option ℕ → Option ℕ
  | [], _, top_menu => top_menu
  | next_parent :: chain, pos, top_menu =>
    findTopMenu chain (pos + 1) (if next_parent.isQMenu then some pos else top_menu)

/-- The call `hide()` on the object at position `pos` of the parent chain.  A receiver that is
not visible stays as it is, and nothing else happens.  A visible receiver is hidden, and with
a menu Qt closes the submenu open from it (`QMenu::hideEvent`): the menus of the chain below
the receiver, and the menu the chain starts from, are hidden as well. -/
def hideAt (t : MenuTree) (pos : ℕ) : MenuTree :=
  match t.parents[pos]? with
  | none => t
  | some receiver =>
    if receiver.visible then
      { visible := false
        parents :=
          (t.parents.take (pos + 1)).map
              (fun node => if node.isQMenu then { node with visible := false } else node) ++
            t.parents.drop (pos + 1) }
    else t

/-- The function `HideMenuTree`: `hide()` is called on the top menu that the walk found. -/
def HideMenuTree (t : MenuTree) : MenuTree :=
  match findTopMenu t.parents 0 none with
  | none => { t with visible := false }
  | some pos => hideAt t pos

/-- The handler `leaveEvent`; `t` is the menu tree around this menu. -/
def leaveEvent (m : CheckableMenu) (t : MenuTree) : LeaveResult :=
  if m.m_any_action_was_triggered then
    { menu := { m with m_any_action_was_triggered := false }, tree := HideMenuTree t,
      passedToQMenu := false }
  else { menu := m, tree := t, passedToQMenu := true }

/-- A menu with three items, the second one checked. -/
def sample : CheckableMenu :=
  CheckableMenu.new.addItems [⟨"a", false, 10⟩, ⟨"b", true, 11⟩, ⟨"c", false, 12⟩]

/-- The sample menu after the left mouse button was released over its first item. -/
def sampleTriggered : CheckableMenu :=
  (sample.mouseReleaseEvent ⟨MouseButton.LeftButton, (0, 0)⟩
    (fun _ => some (ActionRef.item 0))).menu

end CheckableMenu

/-! ## Rounding to `float` and truncation to `int` -/

theorem roundHalfEven_intCast (n : ℤ) : roundHalfEven (n : ℚ) = n := by
  simp [roundHalfEven]

theorem floor_le_roundHalfEven (q : ℚ) : ⌊q⌋ ≤ roundHalfEven q := by
  unfold roundHalfEven
  split_ifs <;> omega

theorem roundHalfEven_le_floor_add_one (q : ℚ) : roundHalfEven q ≤ ⌊q⌋ + 1 := by
  unfold roundHalfEven
  split_ifs <;> omega

theorem roundHalfEven_mono {x y : ℚ} (h : x ≤ y) : roundHalfEven x ≤ roundHalfEven y := by
  have hf : ⌊x⌋ ≤ ⌊y⌋ := Int.floor_mono h
  rcases hf.lt_or_eq with hlt | heq
  · calc roundHalfEven x ≤ ⌊x⌋ + 1 := roundHalfEven_le_floor_add_one x
      _ ≤ ⌊y⌋ := hlt
      _ ≤ roundHalfEven y := floor_le_roundHalfEven y
  · unfold roundHalfEven
    rw [heq]
    have hxy : x - ⌊y⌋ ≤ y - ⌊y⌋ := by linarith
    split_ifs <;> first | omega | (exfalso; linarith)

theorem roundHalfEven_neg (q : ℚ) : roundHalfEven (-q) = -roundHalfEven q := by
  by_cases hq : (⌊q⌋ : ℚ) = q
  · rw [← hq, ← Int.cast_neg, roundHalfEven_intCast, roundHalfEven_intCast]
  · have h1 : (⌊q⌋ : ℚ) < q := lt_of_le_of_ne (Int.floor_le q) hq
    have h2 : q < ⌊q⌋ + 1 := Int.lt_floor_add_one q
    have hfl : ⌊-q⌋ = -⌊q⌋ - 1 := by
      rw [Int.floor_eq_iff]
      push_cast
      constructor <;> linarith
    unfold roundHalfEven
    rw [hfl]
    push_cast
    split_ifs <;> first | omega | (exfalso; linarith)

theorem ulp_pos (q : ℚ) : 0 < ulp q := by
  unfold ulp; positivity

theorem ulp_neg (q : ℚ) : ulp (-q) = ulp q := by
  unfold ulp floatExponent; rw [abs_neg]

theorem toFloat_neg (q : ℚ) : toFloat (-q) = -toFloat q := by
  unfold toFloat
  rw [ulp_neg, neg_div, roundHalfEven_neg]
  push_cast; ring

theorem toFloat_zero : toFloat 0 = 0 := by
  simp [toFloat, roundHalfEven]

theorem toFloat_nonneg {q : ℚ} (h : 0 ≤ q) : 0 ≤ toFloat q := by
  unfold toFloat
  have h1 : (0 : ℚ) ≤ q / ulp q := div_nonneg h (ulp_pos q).le
  have h2 : roundHalfEven 0 ≤ roundHalfEven (q / ulp q) := roundHalfEven_mono h1
  have h3 : roundHalfEven (0 : ℚ) = 0 := by exact_mod_cast roundHalfEven_intCast 0
  rw [h3] at h2
  exact mul_nonneg (by exact_mod_cast h2) (ulp_pos q).le

/-- A rational `m * 2 ^ k` with `|m| < 2 ^ 24` and `-149 ≤ k` is a binary32 value: rounding
leaves it as it is. -/
theorem toFloat_eq_self (m k : ℤ) (hm : |m| < 2 ^ 24) (hk : -149 ≤ k) :
    toFloat (m * (2 : ℚ) ^ k) = m * (2 : ℚ) ^ k := by
  rcases eq_or_ne m 0 with rfl | hm0
  · simp [toFloat_zero]
  have h2k : (0 : ℚ) < (2 : ℚ) ^ k := by positivity
  have hqpos : 0 < |(m : ℚ) * (2 : ℚ) ^ k| := by
    rw [abs_mul, abs_of_pos h2k]
    exact mul_pos (by exact_mod_cast abs_pos.mpr hm0) h2k
  have hlt : |(m : ℚ) * (2 : ℚ) ^ k| < ((2 : ℕ) : ℚ) ^ (24 + k) := by
    rw [abs_mul, abs_of_pos h2k, zpow_add₀ (by norm_num)]
    apply mul_lt_mul_of_pos_right _ h2k
    have : ((|m| : ℤ) : ℚ) < ((2 ^ 24 : ℤ) : ℚ) := by exact_mod_cast hm
    push_cast at this ⊢
    norm_num at this ⊢
    exact this
  have hlog : Int.log 2 |(m : ℚ) * (2 : ℚ) ^ k| < 24 + k :=
    (Int.lt_zpow_iff_log_lt (by norm_num) hqpos).mp hlt
  obtain ⟨E, hE⟩ : ∃ E : ℤ, floatExponent ((m : ℚ) * (2 : ℚ) ^ k) - 23 = E := ⟨_, rfl⟩
  have he : E ≤ k := by
    have := max_le (a := Int.log 2 |(m : ℚ) * (2 : ℚ) ^ k|) (b := -126) (c := 23 + k)
      (by omega) (by omega)
    unfold floatExponent at hE
    omega
  obtain ⟨d, hd⟩ : ∃ d : ℕ, k = E + d := ⟨(k - E).toNat, by omega⟩
  have hu : ulp ((m : ℚ) * (2 : ℚ) ^ k) = (2 : ℚ) ^ E := by unfold ulp; rw [hE]
  have hE0 : (2 : ℚ) ^ E ≠ 0 := by positivity
  have hdiv : (m : ℚ) * (2 : ℚ) ^ k / (2 : ℚ) ^ E = ((m * 2 ^ d : ℤ) : ℚ) := by
    rw [hd, zpow_add₀ (by norm_num), zpow_natCast]
    push_cast
    field_simp
    ring
  unfold toFloat
  rw [hu, hdiv, roundHalfEven_intCast, ← hdiv]
  exact div_mul_cancel₀ _ hE0

/-- Every `int` of magnitude at most `2 ^ 24` converts to `float` without change. -/
theorem toFloat_intCast (n : ℤ) (hn : |n| ≤ 2 ^ 24) : toFloat (n : ℚ) = n := by
  rcases hn.lt_or_eq with h | h
  · simpa using toFloat_eq_self n 0 h (by norm_num)
  · have h2 : n = 2 ^ 24 ∨ n = -2 ^ 24 := by
      rcases abs_cases n with ⟨h1, _⟩ | ⟨h1, _⟩ <;> [left; right] <;> omega
    rcases h2 with rfl | rfl
    · have := toFloat_eq_self (2 ^ 23) 1 (by norm_num) (by norm_num)
      norm_num at this ⊢
      exact this
    · have := toFloat_eq_self (-2 ^ 23) 1 (by norm_num) (by norm_num)
      norm_num at this ⊢
      exact this

theorem floatExponent_mono {x y : ℚ} (hx : 0 < x) (h : x ≤ y) :
    floatExponent x ≤ floatExponent y := by
  unfold floatExponent
  rw [abs_of_pos hx, abs_of_pos (hx.trans_le h)]
  exact max_le_max (Int.log_mono_right hx h) le_rfl

theorem zpow_sub_23_hi (e : ℤ) : (16777216 : ℚ) * (2 : ℚ) ^ (e - 23) = (2 : ℚ) ^ (e + 1) := by
  have h : (16777216 : ℚ) = (2 : ℚ) ^ (24 : ℤ) := by norm_num
  rw [h, ← zpow_add₀ (by norm_num)]
  congr 1; ring

theorem zpow_sub_23_lo (e : ℤ) : (8388608 : ℚ) * (2 : ℚ) ^ (e - 23) = (2 : ℚ) ^ e := by
  have h : (8388608 : ℚ) = (2 : ℚ) ^ (23 : ℤ) := by norm_num
  rw [h, ← zpow_add₀ (by norm_num)]
  congr 1; ring

/-- Rounding does not leave the binade, upper end. -/
theorem toFloat_le_zpow {x : ℚ} (hx : 0 < x) : toFloat x ≤ (2 : ℚ) ^ (floatExponent x + 1) := by
  have h1 : x < ((2 : ℕ) : ℚ) ^ (Int.log 2 x + 1) := Int.lt_zpow_succ_log_self (by norm_num) x
  have h2 : Int.log 2 x ≤ floatExponent x := by
    unfold floatExponent; rw [abs_of_pos hx]; exact le_max_left _ _
  have h3 : x ≤ (2 : ℚ) ^ (floatExponent x + 1) := by
    refine h1.le.trans ?_
    push_cast
    exact zpow_le_zpow_right₀ (by norm_num) (by omega)
  have hu : ulp x = (2 : ℚ) ^ (floatExponent x - 23) := rfl
  have h4 : x / ulp x ≤ ((2 ^ 24 : ℤ) : ℚ) := by
    rw [div_le_iff₀ (ulp_pos x), hu]
    push_cast
    rw [zpow_sub_23_hi]; exact h3
  have h5 := roundHalfEven_mono h4
  rw [roundHalfEven_intCast] at h5
  unfold toFloat
  calc (roundHalfEven (x / ulp x) : ℚ) * ulp x ≤ ((2 ^ 24 : ℤ) : ℚ) * ulp x :=
        mul_le_mul_of_nonneg_right (by exact_mod_cast h5) (ulp_pos x).le
    _ = (2 : ℚ) ^ (floatExponent x + 1) := by
        rw [hu]; push_cast
        exact zpow_sub_23_hi _

/-- Rounding does not leave the binade, lower end, for a normal number. -/
theorem zpow_le_toFloat {y : ℚ} (hy : 0 < y) (he : floatExponent y = Int.log 2 y) :
    (2 : ℚ) ^ floatExponent y ≤ toFloat y := by
  have h1 : ((2 : ℕ) : ℚ) ^ Int.log 2 y ≤ y := Int.zpow_log_le_self (by norm_num) hy
  have hu : ulp y = (2 : ℚ) ^ (floatExponent y - 23) := rfl
  have h4 : ((2 ^ 23 : ℤ) : ℚ) ≤ y / ulp y := by
    rw [le_div_iff₀ (ulp_pos y), hu]
    push_cast
    rw [zpow_sub_23_lo, he]; exact_mod_cast h1
  have h5 := roundHalfEven_mono h4
  rw [roundHalfEven_intCast] at h5
  unfold toFloat
  calc (2 : ℚ) ^ floatExponent y = ((2 ^ 23 : ℤ) : ℚ) * ulp y := by
        rw [hu]; push_cast
        exact (zpow_sub_23_lo _).symm
    _ ≤ (roundHalfEven (y / ulp y) : ℚ) * ulp y :=
        mul_le_mul_of_nonneg_right (by exact_mod_cast h5) (ulp_pos y).le

theorem toFloat_mono_of_pos {x y : ℚ} (hx : 0 < x) (h : x ≤ y) : toFloat x ≤ toFloat y := by
  have hy : 0 < y := hx.trans_le h
  rcases (floatExponent_mono hx h).lt_or_eq with hlt | heq
  · have he : floatExponent y = Int.log 2 y := by
      have hlow : -126 ≤ floatExponent x := le_max_right _ _
      unfold floatExponent at hlt ⊢
      rw [abs_of_pos hy] at hlt ⊢
      apply max_eq_left
      by_contra hc
      rw [max_eq_right (not_le.mp hc).le] at hlt
      unfold floatExponent at hlow
      omega
    calc toFloat x ≤ (2 : ℚ) ^ (floatExponent x + 1) := toFloat_le_zpow hx
      _ ≤ (2 : ℚ) ^ floatExponent y := zpow_le_zpow_right₀ (by norm_num) (by omega)
      _ ≤ toFloat y := zpow_le_toFloat hy he
  · have hu : ulp x = ulp y := by unfold ulp; rw [heq]
    unfold toFloat
    rw [hu]
    have : x / ulp y ≤ y / ulp y := div_le_div_of_nonneg_right h (ulp_pos y).le
    exact mul_le_mul_of_nonneg_right (by exact_mod_cast roundHalfEven_mono this) (ulp_pos y).le

/-- Rounding to `float` is monotone. -/
theorem toFloat_mono {x y : ℚ} (h : x ≤ y) : toFloat x ≤ toFloat y := by
  rcases lt_trichotomy 0 x with hx | hx | hx
  · exact toFloat_mono_of_pos hx h
  · rw [← hx, toFloat_zero]; exact toFloat_nonneg (hx ▸ h)
  · rcases le_or_lt 0 y with hy | hy
    · have h1 : 0 ≤ toFloat (-x) := toFloat_nonneg (by linarith)
      rw [toFloat_neg] at h1
      linarith [toFloat_nonneg hy]
    · have h1 := toFloat_mono_of_pos (x := -y) (y := -x) (by linarith) (by linarith)
      rw [toFloat_neg, toFloat_neg] at h1
      linarith

theorem truncate_mono {x y : ℚ} (h : x ≤ y) : truncate x ≤ truncate y := by
  unfold truncate
  split_ifs with h1 h2 h2
  · exact Int.floor_mono h
  · exfalso; linarith
  · have : ⌈x⌉ ≤ 0 := Int.ceil_le.mpr (by push_cast; linarith)
    have : 0 ≤ ⌊y⌋ := Int.floor_nonneg.mpr h2
    omega
  · exact Int.ceil_mono h

theorem truncate_intCast (n : ℤ) : truncate (n : ℚ) = n := by
  unfold truncate; split_ifs <;> simp

/-- Converting to `float` and then to `int` is monotone. -/
theorem truncate_toFloat_mono {x y : ℚ} (h : x ≤ y) :
    truncate (toFloat x) ≤ truncate (toFloat y) :=
  truncate_mono (toFloat_mono h)

/-- Rounding an `int` of magnitude at most `2 ^ 24` to `float` and truncating gives it
again. -/
theorem truncate_toFloat_intCast (n : ℤ) (hn : |n| ≤ 2 ^ 24) :
    truncate (toFloat (n : ℚ)) = n := by
  rw [toFloat_intCast n hn, truncate_intCast]

/-- In range, the conversion to `int` is the truncation. -/
theorem truncToInt_eq_truncate {q : ℚ} (h : InIntRange q) : truncToInt q = truncate q :=
  if_pos h

/-- Out of range, the conversion delivers `INT_MIN`. -/
theorem truncToInt_eq_INT_MIN {q : ℚ} (h : ¬ InIntRange q) : truncToInt q = INT_MIN :=
  if_neg h

/-- Whatever the `float`, the conversion delivers a value of `int`. -/
theorem truncToInt_isInt (q : ℚ) : INT_MIN ≤ truncToInt q ∧ truncToInt q ≤ INT_MAX := by
  unfold truncToInt
  split_ifs with h
  · exact h
  · decide

theorem inIntRange_intCast (n : ℤ) (h1 : INT_MIN ≤ n) (h2 : n ≤ INT_MAX) :
    InIntRange (n : ℚ) := by
  unfold InIntRange
  rw [truncate_intCast]
  exact ⟨h1, h2⟩

theorem truncToInt_intCast (n : ℤ) (h1 : INT_MIN ≤ n) (h2 : n ≤ INT_MAX) :
    truncToInt (n : ℚ) = n := by
  rw [truncToInt_eq_truncate (inIntRange_intCast n h1 h2), truncate_intCast]

/-- A `float` between two values of `int` can be converted to `int`. -/
theorem inIntRange_of_le {q : ℚ} (lo hi : ℤ) (h1 : INT_MIN ≤ lo) (h2 : hi ≤ INT_MAX)
    (hlo : (lo : ℚ) ≤ q) (hhi : q ≤ (hi : ℚ)) : InIntRange q := by
  have ha := truncate_mono hlo
  have hb := truncate_mono hhi
  rw [truncate_intCast] at ha hb
  exact ⟨h1.trans ha, hb.trans h2⟩

/-- The exponent of a positive number caught between two powers of two. -/
theorem floatExponent_eq (q : ℚ) (e : ℤ) (hq : 0 < q) (he : -126 ≤ e)
    (h1 : (2 : ℚ) ^ e ≤ q) (h2 : q < (2 : ℚ) ^ (e + 1)) : floatExponent q = e := by
  have hlog : Int.log 2 q = e := by
    apply le_antisymm
    · have := (Int.lt_zpow_iff_log_lt (b := 2) (by norm_num) hq).mp (by exact_mod_cast h2)
      omega
    · exact (Int.zpow_le_iff_le_log (b := 2) (by norm_num) hq).mp (by exact_mod_cast h1)
  unfold floatExponent
  rw [abs_of_pos hq, hlog]
  exact max_eq_left he

/-- Value of `toFloat` from the exponent and the rounded significand. -/
theorem toFloat_eq_of (q : ℚ) (e n : ℤ) (hq : 0 < q) (he : -126 ≤ e)
    (h1 : (2 : ℚ) ^ e ≤ q) (h2 : q < (2 : ℚ) ^ (e + 1))
    (hn : roundHalfEven (q / (2 : ℚ) ^ (e - 23)) = n) : toFloat q = n * (2 : ℚ) ^ (e - 23) := by
  unfold toFloat ulp
  rw [floatExponent_eq q e hq he h1 h2, hn]

theorem roundHalfEven_eq_of (q : ℚ) (n : ℤ) (h1 : (n : ℚ) - 1 / 2 < q) (h2 : q < n + 1 / 2) :
    roundHalfEven q = n := by
  unfold roundHalfEven
  have hfl : ⌊q⌋ = n ∨ ⌊q⌋ = n - 1 := by
    have h3 : n - 1 ≤ ⌊q⌋ := by rw [Int.le_floor]; push_cast; linarith
    have h4 : ⌊q⌋ < n + 1 := by rw [Int.floor_lt]; push_cast; linarith
    omega
  rcases hfl with h | h
  · rw [h]
    rw [if_pos (by linarith)]
  · have h5 : q < ⌊q⌋ + 1 := Int.lt_floor_add_one q
    rw [h] at h5 ⊢
    push_cast at h5 ⊢
    rw [if_neg (by linarith), if_pos (by linarith)]
    ring

/-- The `float` nearest to one tenth, `0.1f`, is `13421773 * 2 ^ -27`. -/
theorem toFloat_one_tenth : toFloat (1 / 10) = 13421773 / 134217728 := by
  have h := toFloat_eq_of (1 / 10) (-4) 13421773 (by norm_num) (by norm_num)
    (by norm_num [zpow_neg]) (by norm_num [zpow_neg])
    (roundHalfEven_eq_of _ _ (by norm_num [zpow_neg]) (by norm_num [zpow_neg]))
  rw [h]
  norm_num [zpow_neg]

/-- In `float`, `1 / 0.1f` is `10.0f`, although the exact quotient is below `10`. -/
theorem toFloat_inv_one_tenth : toFloat (1 / (13421773 / 134217728)) = 10 := by
  have h := toFloat_eq_of (1 / (13421773 / 134217728)) 3 10485760 (by norm_num) (by norm_num)
    (by norm_num) (by norm_num)
    (roundHalfEven_eq_of _ _ (by norm_num [zpow_neg]) (by norm_num [zpow_neg]))
  rw [h]
  norm_num [zpow_neg]

/-- Value of `i * f` when the exact product is a binary32 value. -/
theorem mulIntFloat_eq (i : ℤ) (f : ℚ) (m k : ℤ) (hi : |i| ≤ 2 ^ 24)
    (h : (i : ℚ) * f = m * (2 : ℚ) ^ k) (hm : |m| < 2 ^ 24) (hk : -149 ≤ k) :
    mulIntFloat i f = m * (2 : ℚ) ^ k := by
  unfold mulIntFloat
  rw [toFloat_intCast i hi, h, toFloat_eq_self m k hm hk]

/-- Value of `i / f` when the exact quotient is a binary32 value. -/
theorem divIntFloat_eq (i : ℤ) (f : ℚ) (m k : ℤ) (hi : |i| ≤ 2 ^ 24)
    (h : (i : ℚ) / f = m * (2 : ℚ) ^ k) (hm : |m| < 2 ^ 24) (hk : -149 ≤ k) :
    divIntFloat i f = m * (2 : ℚ) ^ k := by
  unfold divIntFloat
  rw [toFloat_intCast i hi, h, toFloat_eq_self m k hm hk]

/-! ## `AspectRatioLayout`: the geometry handed to the children -/

namespace AspectRatioLayout

/-- The sample layout is what the constructor and one `addItem` produce. -/
theorem sample_eq_new_addItem :
    (AspectRatioLayout.new 2).map
        (fun l => l.addItem { ident := 0, minimumSize := ⟨0, 0⟩, geometry := QRect.null }) =
      some sample := by
  simp [AspectRatioLayout.new, ASSERT, addItem, sample]

/-- At ratio `2.0` the product `i * ratio` is exact. -/
theorem sample_mulIntFloat (i : ℤ) (hi : |i| < 2 ^ 23) :
    mulIntFloat i sample.m_aspect_ratio = ((i * 2 : ℤ) : ℚ) := by
  have h : mulIntFloat i sample.m_aspect_ratio = ((i * 2 : ℤ) : ℚ) * (2 : ℚ) ^ (0 : ℤ) :=
    mulIntFloat_eq i _ (i * 2) 0 (by rw [abs_lt] at hi; rw [abs_le]; omega)
      (by simp [sample]) (by rw [abs_lt] at *; omega) (by norm_num)
  rw [h, zpow_zero, mul_one]

/-- At ratio `2.0` the quotient `(2 * i) / ratio` is exact. -/
theorem sample_divIntFloat_even (i : ℤ) (hi : |i| < 2 ^ 23) :
    divIntFloat (2 * i) sample.m_aspect_ratio = ((i : ℤ) : ℚ) := by
  have h : divIntFloat (2 * i) sample.m_aspect_ratio = ((i : ℤ) : ℚ) * (2 : ℚ) ^ (0 : ℤ) :=
    divIntFloat_eq (2 * i) _ i 0 (by rw [abs_le]; rw [abs_lt] at hi; omega)
      (by simp [sample]) (by rw [abs_lt] at *; omega) (by norm_num)
  rw [h, zpow_zero, mul_one]

theorem sample_mul (i : ℤ) (hi : |i| < 2 ^ 23) :
    truncToInt (mulIntFloat i sample.m_aspect_ratio) = i * 2 := by
  rw [sample_mulIntFloat i hi]
  rw [abs_lt] at hi
  exact truncToInt_intCast _ (by unfold INT_MIN; omega) (by unfold INT_MAX; omega)

theorem sample_div_even (i : ℤ) (hi : |i| < 2 ^ 23) :
    truncToInt (divIntFloat (2 * i) sample.m_aspect_ratio) = i := by
  rw [sample_divIntFloat_even i hi]
  rw [abs_lt] at hi
  exact truncToInt_intCast _ (by unfold INT_MIN; omega) (by unfold INT_MAX; omega)

theorem sample_mul_inIntRange (i : ℤ) (hi : |i| < 2 ^ 23) :
    InIntRange (mulIntFloat i sample.m_aspect_ratio) := by
  rw [sample_mulIntFloat i hi]
  rw [abs_lt] at hi
  exact inIntRange_intCast _ (by unfold INT_MIN; omega) (by unfold INT_MAX; omega)

theorem sample_div_three : divIntFloat 3 sample.m_aspect_ratio = 3 / 2 := by
  have h : divIntFloat 3 sample.m_aspect_ratio = ((3 : ℤ) : ℚ) * (2 : ℚ) ^ (-1 : ℤ) :=
    divIntFloat_eq 3 _ 3 (-1) (by norm_num) (by norm_num [sample]) (by norm_num) (by norm_num)
  rw [h]; norm_num

theorem truncate_three_halves : truncate (3 / 2 : ℚ) = 1 := by
  unfold truncate
  rw [if_pos (by norm_num), Int.floor_eq_iff]
  norm_num

theorem inIntRange_three_halves : InIntRange (3 / 2 : ℚ) := by
  unfold InIntRange
  rw [truncate_three_halves]
  decide

theorem truncToInt_three_halves : truncToInt (3 / 2 : ℚ) = 1 := by
  rw [truncToInt_eq_truncate inIntRange_three_halves, truncate_three_halves]

/-- Out of range: at ratio `2 ^ -30` and an available rectangle of `100 x 100` the quotient
`100 / ratio` cannot be converted to `int`, and the claimed height `min(100, trunc(100 / ratio))`
is `100`, while the height that `setGeometry` computes is `0`. -/
theorem fittedSize_conversion_out_of_range :
    ¬ InIntRange (divIntFloat 100 (1 / 1073741824)) ∧
    min (100 : ℤ) (truncate (divIntFloat 100 (1 / 1073741824))) = 100 ∧
    ((sample.setAspectRatio (1 / 1073741824)).fittedSize (QRect.ofSize 0 0 100 100)).ht = 0 := by
  have hq : divIntFloat 100 (1 / 1073741824) = ((107374182400 : ℤ) : ℚ) := by
    have h := divIntFloat_eq 100 (1 / 1073741824) 25 32 (by norm_num) (by norm_num)
      (by norm_num) (by norm_num)
    rw [h]; norm_num
  have hnot : ¬ InIntRange (divIntFloat 100 (1 / 1073741824)) := by
    rw [hq]
    unfold InIntRange
    rw [truncate_intCast]
    decide
  refine ⟨hnot, ?_, ?_⟩
  · rw [hq, truncate_intCast]; decide
  · have hw : (QRect.ofSize 0 0 100 100).width = 100 := by decide
    have hr : (sample.setAspectRatio (1 / 1073741824)).m_aspect_ratio = 1 / 1073741824 := rfl
    have hm : (sample.setAspectRatio (1 / 1073741824)).minimumSize = ⟨0, 0⟩ := rfl
    unfold fittedSize
    rw [hw, hr, hm]
    show max (min (QRect.ofSize 0 0 100 100).height
      (truncToInt (divIntFloat 100 (1 / 1073741824)))) 0 = 0
    rw [truncToInt_eq_INT_MIN hnot]
    decide

/-! ## `AspectRatioLayout`: the clamp of `setGeometry` -/

/-- Claim C2, as stated, fails.  After `setMinimumSize(50 x 50)` on a layout of ratio `2.0` the
stored minimum size is `100 x 50`; for an available rectangle of `10 x 10` the width and height
that `setGeometry` computes are `10` and `5`, below the stored minimum. -/
theorem fittedSize_below_stored_minimum :
    (sample.setMinimumSize ⟨50, 50⟩).m_minimum_size = ⟨100, 50⟩ ∧
    (sample.setMinimumSize ⟨50, 50⟩).fittedSize (QRect.ofSize 0 0 10 10) = ⟨10, 5⟩ ∧
    ((sample.setMinimumSize ⟨50, 50⟩).fittedSize (QRect.ofSize 0 0 10 10)).wd <
      (sample.setMinimumSize ⟨50, 50⟩).m_minimum_size.wd ∧
    ((sample.setMinimumSize ⟨50, 50⟩).fittedSize (QRect.ofSize 0 0 10 10)).ht <
      (sample.setMinimumSize ⟨50, 50⟩).m_minimum_size.ht := by
  have h1 : truncToInt (mulIntFloat 50 sample.m_aspect_ratio) = 100 :=
    sample_mul 50 (by norm_num)
  have h2 : truncToInt (divIntFloat 50 sample.m_aspect_ratio) = 25 :=
    sample_div_even 25 (by norm_num)
  have h3 : truncToInt (mulIntFloat 10 sample.m_aspect_ratio) = 20 :=
    sample_mul 10 (by norm_num)
  have h4 : truncToInt (divIntFloat 10 sample.m_aspect_ratio) = 5 :=
    sample_div_even 5 (by norm_num)
  have hm : (sample.setMinimumSize ⟨50, 50⟩).m_minimum_size = ⟨100, 50⟩ := by
    simp only [setMinimumSize, h1, h2]
    decide
  have hw : (QRect.ofSize 0 0 10 10).width = 10 := by decide
  have hh : (QRect.ofSize 0 0 10 10).height = 10 := by decide
  have hr : (sample.setMinimumSize ⟨50, 50⟩).m_aspect_ratio = sample.m_aspect_ratio := rfl
  have hf : (sample.setMinimumSize ⟨50, 50⟩).fittedSize (QRect.ofSize 0 0 10 10) = ⟨10, 5⟩ := by
    unfold fittedSize
    rw [hw, hh, hr, h3, h4]
    decide
  rw [hm, hf]
  decide

/-- Claim C2, amended.  On a layout with at least one child and a ratio `> 0`, whatever size
was passed to `setMinimumSize`, the width and height that `setGeometry` computes are at least
the width and height of the first child's own minimum size, which is what `minimumSize()`
returns; the size stored by `setMinimumSize` plays no part in them. -/
theorem fittedSize_ge_child_minimum (l : AspectRatioLayout) (s : QSize) (rect : QRect)
    (item : QLayoutItem) (others : List QLayoutItem) (hitems : l.m_items = item :: others)
    (hratio : 0 < l.m_aspect_ratio) :
    (l.setMinimumSize s).minimumSize = item.minimumSize ∧
    item.minimumSize.wd ≤ ((l.setMinimumSize s).fittedSize rect).wd ∧
    item.minimumSize.ht ≤ ((l.setMinimumSize s).fittedSize rect).ht ∧
    (l.setMinimumSize s).fittedSize rect = l.fittedSize rect := by
  have _ := hratio
  have hms : (l.setMinimumSize s).minimumSize = item.minimumSize := by
    simp only [minimumSize, setMinimumSize, hitems]
  refine ⟨hms, ?_, ?_, ?_⟩
  · unfold fittedSize; rw [hms]; exact le_max_right _ _
  · unfold fittedSize; rw [hms]; exact le_max_right _ _
  · simp only [fittedSize, minimumSize, setMinimumSize]

/-- Witness of `fittedSize_ge_child_minimum`. -/
theorem fittedSize_ge_child_minimum_witness :
    (sample.setMinimumSize ⟨50, 50⟩).fittedSize (QRect.ofSize 0 0 10 10) =
      sample.fittedSize (QRect.ofSize 0 0 10 10) :=
  (fittedSize_ge_child_minimum sample ⟨50, 50⟩ (QRect.ofSize 0 0 10 10)
    { ident := 0, minimumSize := ⟨0, 0⟩, geometry := QRect.null } [] rfl
    (by norm_num [sample])).2.2.2

/-! ## `AspectRatioLayout`: the setters -/

/-- Claim C3, as stated, fails.  At ratio `2.0` and for the size `0 x 1073741824` the product
`h * r` is `2 ^ 31`, which is no `int`: the element-wise maximum of the claim would have the
width `2147483648`, and `setMinimumSize` stores `0 x 1073741824`. -/
theorem setMinimumSize_product_out_of_range :
    sample.m_aspect_ratio ≠ 0 ∧
    ¬ InIntRange (mulIntFloat 1073741824 sample.m_aspect_ratio) ∧
    max (0 : ℤ) (truncate (mulIntFloat 1073741824 sample.m_aspect_ratio)) = 2147483648 ∧
    (sample.setMinimumSize ⟨0, 1073741824⟩).m_minimum_size = ⟨0, 1073741824⟩ := by
  have hf : toFloat ((1073741824 : ℤ) : ℚ) = 1073741824 := by
    have h := toFloat_eq_self 1 30 (by norm_num) (by norm_num)
    norm_num at h ⊢
    exact h
  have hq : mulIntFloat 1073741824 sample.m_aspect_ratio = ((2147483648 : ℤ) : ℚ) := by
    unfold mulIntFloat
    rw [hf]
    have h := toFloat_eq_self 1 31 (by norm_num) (by norm_num)
    norm_num [sample] at h ⊢
    exact h
  have hnot : ¬ InIntRange (mulIntFloat 1073741824 sample.m_aspect_ratio) := by
    rw [hq]
    unfold InIntRange
    rw [truncate_intCast]
    decide
  have hd : truncToInt (divIntFloat 0 sample.m_aspect_ratio) = 0 :=
    sample_div_even 0 (by norm_num)
  refine ⟨by norm_num [sample], hnot, ?_, ?_⟩
  · rw [hq, truncate_intCast]; decide
  · simp only [setMinimumSize, truncToInt_eq_INT_MIN hnot, hd]
    decide

/-- Claim C3, amended.  For a non-zero ratio `r` and every size `s = (w, h)` such that the
`float` values `h * r` and `w / r` can be converted to `int`: after `setMinimumSize(s)` the
stored minimum size is the element-wise maximum of `s` and `(trunc(h * r), trunc(w / r))`;
hence at least `s` in both dimensions; after `setDefaultSize(s)` the stored default size,
which `sizeHint` returns, is that same element-wise maximum. -/
theorem setMinimumSize_setDefaultSize_expand (l : AspectRatioLayout) (s : QSize)
    (hr : l.m_aspect_ratio ≠ 0)
    (hmul : InIntRange (mulIntFloat s.ht l.m_aspect_ratio))
    (hdiv : InIntRange (divIntFloat s.wd l.m_aspect_ratio)) :
    (l.setMinimumSize s).m_minimum_size =
      ⟨max s.wd (truncate (mulIntFloat s.ht l.m_aspect_ratio)),
       max s.ht (truncate (divIntFloat s.wd l.m_aspect_ratio))⟩ ∧
    s.wd ≤ (l.setMinimumSize s).m_minimum_size.wd ∧
    s.ht ≤ (l.setMinimumSize s).m_minimum_size.ht ∧
    (l.setDefaultSize s).sizeHint =
      ⟨max s.wd (truncate (mulIntFloat s.ht l.m_aspect_ratio)),
       max s.ht (truncate (divIntFloat s.wd l.m_aspect_ratio))⟩ ∧
    (l.setDefaultSize s).m_default_size = (l.setDefaultSize s).sizeHint := by
  have _ := hr
  refine ⟨?_, le_max_left _ _, le_max_left _ _, ?_, rfl⟩
  · simp only [setMinimumSize, QSize.expandedTo, truncToInt_eq_truncate hmul,
      truncToInt_eq_truncate hdiv]
  · simp only [sizeHint, setDefaultSize, QSize.expandedTo, truncToInt_eq_truncate hmul,
      truncToInt_eq_truncate hdiv]

/-- The stored size is at least the size passed in, also when a conversion is out of range. -/
theorem setMinimumSize_ge (l : AspectRatioLayout) (s : QSize) :
    s.wd ≤ (l.setMinimumSize s).m_minimum_size.wd ∧
    s.ht ≤ (l.setMinimumSize s).m_minimum_size.ht :=
  ⟨le_max_left _ _, le_max_left _ _⟩

/-- Witness of `setMinimumSize_setDefaultSize_expand`: ratio `2.0`, size `3 x 1`. -/
theorem setMinimumSize_setDefaultSize_expand_witness :
    sample.m_aspect_ratio ≠ 0 ∧
    (sample.setMinimumSize ⟨3, 1⟩).m_minimum_size =
      ⟨max 3 (truncate (mulIntFloat 1 sample.m_aspect_ratio)),
       max 1 (truncate (divIntFloat 3 sample.m_aspect_ratio))⟩ :=
  ⟨by norm_num [sample],
   (setMinimumSize_setDefaultSize_expand sample ⟨3, 1⟩ (by norm_num [sample])
      (sample_mul_inIntRange 1 (by norm_num))
      (by rw [sample_div_three]; exact inIntRange_three_halves)).1⟩

/-- The size stored by `setMinimumSize(3 x 1)` at ratio `2.0`. -/
theorem sample_setMinimumSize_three_one :
    (sample.setMinimumSize ⟨3, 1⟩).m_minimum_size = ⟨3, 1⟩ := by
  have h1 : truncToInt (mulIntFloat 1 sample.m_aspect_ratio) = 2 :=
    sample_mul 1 (by norm_num)
  have h2 : truncToInt (divIntFloat 3 sample.m_aspect_ratio) = 1 := by
    rw [sample_div_three, truncToInt_three_halves]
  simp only [setMinimumSize, h1, h2]
  decide

/-- Claim C4, as stated, fails.  At ratio `2.0`, `setMinimumSize(3 x 1)` stores `3 x 1`, and
`3 / 1` is not `2`. -/
theorem setMinimumSize_ratio_not_exact :
    (sample.setMinimumSize ⟨3, 1⟩).m_minimum_size = ⟨3, 1⟩ ∧
    ((sample.setMinimumSize ⟨3, 1⟩).m_minimum_size.wd : ℚ) /
        ((sample.setMinimumSize ⟨3, 1⟩).m_minimum_size.ht : ℚ) ≠
      (sample.setMinimumSize ⟨3, 1⟩).m_aspect_ratio := by
  refine ⟨sample_setMinimumSize_three_one, ?_⟩
  rw [sample_setMinimumSize_three_one]
  norm_num [setMinimumSize, sample]

/-- The element-wise maximum of `(w, h)` and `(trunc(h * r), trunc(w / r))` agrees with the
ratio `r > 0` up to truncation, for `w` and `h` that `float` holds exactly and values
`h * r` and `w / r` that can be converted to `int`. -/
theorem matchesRatio_expandedTo (r : ℚ) (s : QSize) (hr : 0 < r) (hs : ExpandsInRange r s) :
    MatchesRatio r
      (s.expandedTo ⟨truncToInt (mulIntFloat s.ht r), truncToInt (divIntFloat s.wd r)⟩) := by
  obtain ⟨hw, hh, hmulr, hdivr⟩ := hs
  rw [truncToInt_eq_truncate hmulr, truncToInt_eq_truncate hdivr]
  have hmul : mulIntFloat s.ht r = toFloat ((s.ht : ℚ) * r) := by
    unfold mulIntFloat; rw [toFloat_intCast _ hh]
  have hdiv : divIntFloat s.wd r = toFloat ((s.wd : ℚ) / r) := by
    unfold divIntFloat; rw [toFloat_intCast _ hw]
  rcases le_or_lt ((s.ht : ℚ) * r) (s.wd : ℚ) with hle | hlt
  · -- the width is kept, the height follows from it
    have ha : truncate (mulIntFloat s.ht r) ≤ s.wd := by
      have := truncate_toFloat_mono hle
      rwa [truncate_toFloat_intCast _ hw, ← hmul] at this
    have hb : s.ht ≤ truncate (divIntFloat s.wd r) := by
      have h1 : (s.ht : ℚ) ≤ (s.wd : ℚ) / r := (le_div_iff₀ hr).mpr hle
      have := truncate_toFloat_mono h1
      rwa [truncate_toFloat_intCast _ hh, ← hdiv] at this
    left
    simp only [QSize.expandedTo, max_eq_left ha, max_eq_right hb]
  · -- the height is kept, the width follows from it
    have ha : s.wd ≤ truncate (mulIntFloat s.ht r) := by
      have := truncate_toFloat_mono hlt.le
      rwa [truncate_toFloat_intCast _ hw, ← hmul] at this
    have hb : truncate (divIntFloat s.wd r) ≤ s.ht := by
      have h1 : (s.wd : ℚ) / r ≤ (s.ht : ℚ) := (div_le_iff₀ hr).mpr hlt.le
      have := truncate_toFloat_mono h1
      rwa [truncate_toFloat_intCast _ hh, ← hdiv] at this
    right
    simp only [QSize.expandedTo, max_eq_right ha, max_eq_left hb]

/-- Claim C4, amended.  Let the ratio be `> 0` and let the size handed to a setter be in range
for it (`ExpandsInRange`: width and height at most `2 ^ 24` in magnitude, and `height * ratio`
and `width / ratio` convertible to `int`).  Then the size that the setter stores agrees with
the aspect ratio up to the truncation to whole pixels (`MatchesRatio`: height
`= trunc(width / ratio)` or width `= trunc(height * ratio)`): the minimum size after
`setMinimumSize(s)`, the default size after `setDefaultSize(s)`, and, the stored sizes being
in range for `r`, both after `setAspectRatio(r)`.  `setMinimumSize` leaves the default size as
it was, and `setDefaultSize` the minimum size. -/
theorem setters_match_ratio (l : AspectRatioLayout) (s : QSize) (r : ℚ)
    (hl : 0 < l.m_aspect_ratio) (hr : 0 < r)
    (hs : ExpandsInRange l.m_aspect_ratio s)
    (hm : ExpandsInRange r l.m_minimum_size) (hd : ExpandsInRange r l.m_default_size) :
    MatchesRatio (l.setMinimumSize s).m_aspect_ratio (l.setMinimumSize s).m_minimum_size ∧
    (l.setMinimumSize s).m_default_size = l.m_default_size ∧
    MatchesRatio (l.setDefaultSize s).m_aspect_ratio (l.setDefaultSize s).m_default_size ∧
    (l.setDefaultSize s).m_minimum_size = l.m_minimum_size ∧
    MatchesRatio (l.setAspectRatio r).m_aspect_ratio (l.setAspectRatio r).m_minimum_size ∧
    MatchesRatio (l.setAspectRatio r).m_aspect_ratio (l.setAspectRatio r).m_default_size :=
  ⟨matchesRatio_expandedTo _ s hl hs, rfl, matchesRatio_expandedTo _ s hl hs, rfl,
   matchesRatio_expandedTo r l.m_minimum_size hr hm,
   matchesRatio_expandedTo r l.m_default_size hr hd⟩

/-- The size `3 x 1` is in range at ratio `2.0`. -/
theorem sample_expandsInRange_three_one : ExpandsInRange sample.m_aspect_ratio ⟨3, 1⟩ :=
  ⟨by norm_num, by norm_num, sample_mul_inIntRange 1 (by norm_num),
   by rw [sample_div_three]; exact inIntRange_three_halves⟩

/-- The size `QSize{}` is in range at ratio `4.0`. -/
theorem invalid_expandsInRange_four : ExpandsInRange 4 QSize.invalid := by
  have hm : mulIntFloat (-1) 4 = ((-4 : ℤ) : ℚ) := by
    have h := mulIntFloat_eq (-1) 4 (-1) 2 (by norm_num) (by norm_num) (by norm_num)
      (by norm_num)
    rw [h]; norm_num
  have hd : divIntFloat (-1) 4 = -1 / 4 := by
    have h := divIntFloat_eq (-1) 4 (-1) (-2) (by norm_num) (by norm_num [zpow_neg])
      (by norm_num) (by norm_num)
    rw [h]; norm_num [zpow_neg]
  refine ⟨by norm_num [QSize.invalid], by norm_num [QSize.invalid], ?_, ?_⟩
  · show InIntRange (mulIntFloat (-1) 4)
    rw [hm]
    exact inIntRange_intCast _ (by decide) (by decide)
  · show InIntRange (divIntFloat (-1) 4)
    rw [hd]
    exact inIntRange_of_le (-1) 0 (by decide) (by decide) (by norm_num) (by norm_num)

/-- Witness of `setters_match_ratio`: ratio `2.0`, size `3 x 1`, new ratio `4.0`. -/
theorem setters_match_ratio_witness :
    MatchesRatio (sample.setMinimumSize ⟨3, 1⟩).m_aspect_ratio
      (sample.setMinimumSize ⟨3, 1⟩).m_minimum_size ∧
    MatchesRatio (sample.setAspectRatio 4).m_aspect_ratio
      (sample.setAspectRatio 4).m_minimum_size :=
  let h := setters_match_ratio sample ⟨3, 1⟩ 4 (by norm_num [sample]) (by norm_num)
    sample_expandsInRange_three_one invalid_expandsInRange_four invalid_expandsInRange_four
  ⟨h.1, h.2.2.2.2.1⟩

/-- Out of range: at ratio `256.0` the size `0 x 16777216` is not in range, the product
`h * ratio` being `2 ^ 32`, and the size that `setMinimumSize` stores, `0 x 16777216`, does not
agree with the ratio. -/
theorem setMinimumSize_ratio_256 :
    ¬ ExpandsInRange 256 ⟨0, 16777216⟩ ∧
    ((sample.setAspectRatio 256).setMinimumSize ⟨0, 16777216⟩).m_minimum_size =
      ⟨0, 16777216⟩ ∧
    ¬ MatchesRatio 256 ⟨0, 16777216⟩ := by
  have hq : mulIntFloat 16777216 256 = ((4294967296 : ℤ) : ℚ) := by
    unfold mulIntFloat
    rw [toFloat_intCast 16777216 (by norm_num)]
    have h := toFloat_eq_self 1 32 (by norm_num) (by norm_num)
    norm_num at h ⊢
    exact h
  have hd : divIntFloat 0 256 = ((0 : ℤ) : ℚ) := by
    have h := divIntFloat_eq 0 256 0 0 (by norm_num) (by norm_num) (by norm_num) (by norm_num)
    rw [h]; norm_num
  have hnot : ¬ InIntRange (mulIntFloat 16777216 256) := by
    rw [hq]
    unfold InIntRange
    rw [truncate_intCast]
    decide
  refine ⟨fun h => hnot h.2.2.1, ?_, ?_⟩
  · show QSize.expandedTo ⟨0, 16777216⟩
      ⟨truncToInt (mulIntFloat 16777216 256), truncToInt (divIntFloat 0 256)⟩ = ⟨0, 16777216⟩
    rw [truncToInt_eq_INT_MIN hnot, hd, truncToInt_intCast 0 (by decide) (by decide)]
    decide
  · unfold MatchesRatio
    show ¬ ((16777216 : ℤ) = truncate (divIntFloat 0 256) ∨
      (0 : ℤ) = truncate (mulIntFloat 16777216 256))
    rw [hq, hd, truncate_intCast, truncate_intCast]
    decide

/-! ## `AspectRatioLayout`: the stored aspect ratio -/

/-- Claim C5, the code at the failing input.  The constructor asserts `aspect_ratio != 0` and
refuses the ratio `0`; `setAspectRatio` has neither assertion nor guard, and after
`setAspectRatio(0)` on a layout built with the ratio `2.0` the stored ratio is `0`. -/
theorem setAspectRatio_zero_is_stored :
    AspectRatioLayout.new 0 = none ∧
    (AspectRatioLayout.new 2).map (fun l => (l.setAspectRatio 0).m_aspect_ratio) = some 0 ∧
    (sample.setAspectRatio 0).m_aspect_ratio = 0 := by
  refine ⟨?_, ?_, rfl⟩
  · simp [AspectRatioLayout.new, ASSERT]
  · simp [AspectRatioLayout.new, ASSERT, setAspectRatio, setMinimumSize, setDefaultSize]

/-- The assertion of the constructor is the only check of the ratio: it passes exactly for a
non-zero argument, which is then stored. -/
theorem new_isSome_iff (aspect_ratio : ℚ) :
    (AspectRatioLayout.new aspect_ratio).isSome = true ↔ aspect_ratio ≠ 0 := by
  by_cases ha : aspect_ratio = 0 <;> simp [AspectRatioLayout.new, ASSERT, ha]

/-- The assertion of the constructor does not look at the sign: the ratio `-1.0` is accepted
and stored. -/
theorem new_accepts_negative_ratio :
    (AspectRatioLayout.new (-1)).map (fun l => l.m_aspect_ratio) = some (-1) := by
  simp [AspectRatioLayout.new, ASSERT]

/-! ## `AspectRatioLayout`: the children -/

/-- Claim C9.  For every child sequence and every index `i`: when `i < 0` or `i >= count()`,
`itemAt(i)` and `takeAt(i)` return null and the layout is unchanged; when `0 <= i < count()`,
`itemAt(i)` returns the `i`-th child, and `takeAt(i)` returns the `i`-th child and leaves the
sequence without that element, the others in their order, `count()` one less, and the other
members untouched. -/
theorem itemAt_takeAt_spec (l : AspectRatioLayout) (i : ℤ) :
    (i < 0 ∨ i ≥ l.count → l.itemAt i = none ∧ l.takeAt i = (none, l)) ∧
    (0 ≤ i ∧ i < l.count →
      ∃ child, l.m_items[i.toNat]? = some child ∧
        l.itemAt i = some child ∧
        (l.takeAt i).1 = some child ∧
        (l.takeAt i).2.m_items = l.m_items.take i.toNat ++ l.m_items.drop (i.toNat + 1) ∧
        l.m_items = l.m_items.take i.toNat ++ child :: l.m_items.drop (i.toNat + 1) ∧
        (l.takeAt i).2.count = l.count - 1 ∧
        (l.takeAt i).2 = { l with m_items := (l.takeAt i).2.m_items }) := by
  constructor
  · intro h
    simp only [itemAt, takeAt, if_pos h, and_self]
  · rintro ⟨h0, h1⟩
    have hn : ¬ (i < 0 ∨ i ≥ l.count) := by omega
    have hlt : i.toNat < l.m_items.length := by
      unfold count at h1; omega
    refine ⟨l.m_items[i.toNat], List.getElem?_eq_getElem hlt, ?_, ?_, ?_, ?_, ?_, ?_⟩
    · simp only [itemAt, if_neg hn, List.getElem?_eq_getElem hlt]
    · simp only [takeAt, if_neg hn, List.getElem?_eq_getElem hlt]
    · simp only [takeAt, if_neg hn, List.eraseIdx_eq_take_drop_succ]
    · conv_lhs => rw [← List.take_append_drop i.toNat l.m_items]
      rw [List.drop_eq_getElem_cons hlt]
    · simp only [takeAt, if_neg hn]
      simp only [count, List.length_eraseIdx, if_pos hlt]
      omega
    · simp only [takeAt, if_neg hn]

/-- Witness of `itemAt_takeAt_spec`: the index `0` on a layout with one child. -/
theorem itemAt_takeAt_spec_witness :
    sample.itemAt 0 = sample.m_items[(0 : ℤ).toNat]? ∧
    (sample.takeAt 0).1 = sample.m_items[(0 : ℤ).toNat]? ∧
    (sample.takeAt 0).2.count = sample.count - 1 ∧
    sample.itemAt (-1) = none := by
  obtain ⟨child, h1, h2, h3, _, _, h6, _⟩ :=
    (itemAt_takeAt_spec sample 0).2 ⟨le_refl 0, by decide⟩
  exact ⟨h2.trans h1.symm, h3.trans h1.symm, h6,
    ((itemAt_takeAt_spec sample (-1)).1 (Or.inl (by decide))).1⟩

/-! ## `AspectRatioLayout`: `heightForWidth` -/

/-- Claim C10, as stated, fails.  After `setAspectRatio(2.0)`, `heightForWidth(3)` is `1`, not
`3 / 2.0`. -/
theorem heightForWidth_three_truncated :
    (sample.setAspectRatio 2).heightForWidth 3 = 1 ∧
    (((sample.setAspectRatio 2).heightForWidth 3 : ℤ) : ℚ) ≠ (3 : ℚ) / 2 := by
  have h : (sample.setAspectRatio 2).heightForWidth 3 = 1 := by
    show truncToInt (divIntFloat 3 sample.m_aspect_ratio) = 1
    rw [sample_div_three, truncToInt_three_halves]
  refine ⟨h, ?_⟩
  rw [h]
  norm_num

/-- For `|w| ≤ 2 ^ 24` and `|w / ratio| ≤ 2 ^ 24` the `float` quotient, truncated, lies between
the floor and the ceiling of the exact quotient, and can be converted to `int`. -/
theorem truncate_divIntFloat_bounds (ratio : ℚ) (w : ℤ) (hw : |w| ≤ 2 ^ 24)
    (hq : |(w : ℚ) / ratio| ≤ 2 ^ 24) :
    ⌊(w : ℚ) / ratio⌋ ≤ truncate (divIntFloat w ratio) ∧
    truncate (divIntFloat w ratio) ≤ ⌈(w : ℚ) / ratio⌉ ∧
    InIntRange (divIntFloat w ratio) := by
  have hdiv : divIntFloat w ratio = toFloat ((w : ℚ) / ratio) := by
    unfold divIntFloat; rw [toFloat_intCast _ hw]
  have hq' := abs_le.mp hq
  have hfl : |⌊(w : ℚ) / ratio⌋| ≤ 2 ^ 24 := by
    rw [abs_le]
    constructor
    · rw [Int.le_floor]; push_cast; linarith [hq'.1]
    · have h1 : (⌊(w : ℚ) / ratio⌋ : ℚ) ≤ 2 ^ 24 := (Int.floor_le _).trans hq'.2
      exact_mod_cast h1
  have hcl : |⌈(w : ℚ) / ratio⌉| ≤ 2 ^ 24 := by
    rw [abs_le]
    constructor
    · have h1 : (-(2 ^ 24) : ℚ) ≤ (⌈(w : ℚ) / ratio⌉ : ℚ) := hq'.1.trans (Int.le_ceil _)
      exact_mod_cast h1
    · rw [Int.ceil_le]; push_cast; linarith [hq'.2]
  have hlo : ⌊(w : ℚ) / ratio⌋ ≤ truncate (divIntFloat w ratio) := by
    have := truncate_toFloat_mono (Int.floor_le ((w : ℚ) / ratio))
    rwa [truncate_toFloat_intCast _ hfl, ← hdiv] at this
  have hhi : truncate (divIntFloat w ratio) ≤ ⌈(w : ℚ) / ratio⌉ := by
    have := truncate_toFloat_mono (Int.le_ceil ((w : ℚ) / ratio))
    rwa [truncate_toFloat_intCast _ hcl, ← hdiv] at this
  refine ⟨hlo, hhi, ?_, ?_⟩
  · have := (abs_le.mp hfl).1
    unfold INT_MIN
    omega
  · have := (abs_le.mp hcl).2
    unfold INT_MAX
    omega

/-- Claim C10, amended.  After `setAspectRatio(ratio)` with `ratio > 0`, `heightForWidth(w)` is
the `float` quotient `w / ratio` converted to `int`.  When that quotient can be converted to
`int`, this is the quotient truncated toward zero.  When `|w| ≤ 2 ^ 24` and
`|w / ratio| ≤ 2 ^ 24`, it is one of the two integers next to the exact quotient,
`⌊w / ratio⌋ ≤ heightForWidth(w) ≤ ⌈w / ratio⌉`, so it equals `w / ratio` whenever that
quotient is an integer. -/
theorem heightForWidth_setAspectRatio (l : AspectRatioLayout) (ratio : ℚ) (w : ℤ)
    (hratio : 0 < ratio) :
    (l.setAspectRatio ratio).heightForWidth w = truncToInt (divIntFloat w ratio) ∧
    (InIntRange (divIntFloat w ratio) →
      (l.setAspectRatio ratio).heightForWidth w = truncate (divIntFloat w ratio)) ∧
    (|w| ≤ 2 ^ 24 → |(w : ℚ) / ratio| ≤ 2 ^ 24 →
      ⌊(w : ℚ) / ratio⌋ ≤ (l.setAspectRatio ratio).heightForWidth w ∧
      (l.setAspectRatio ratio).heightForWidth w ≤ ⌈(w : ℚ) / ratio⌉ ∧
      (∀ n : ℤ, (w : ℚ) / ratio = n → (l.setAspectRatio ratio).heightForWidth w = n)) := by
  have _ := hratio
  have hdef : (l.setAspectRatio ratio).heightForWidth w = truncToInt (divIntFloat w ratio) := rfl
  refine ⟨hdef, fun hin => hdef.trans (truncToInt_eq_truncate hin), ?_⟩
  intro hw hq
  obtain ⟨hlo, hhi, hin⟩ := truncate_divIntFloat_bounds ratio w hw hq
  rw [hdef, truncToInt_eq_truncate hin]
  refine ⟨hlo, hhi, ?_⟩
  intro n hn
  rw [hn, Int.floor_intCast] at hlo
  rw [hn, Int.ceil_intCast] at hhi
  omega

/-- Witness of `heightForWidth_setAspectRatio`: ratio `2.0`, width `3`. -/
theorem heightForWidth_setAspectRatio_witness :
    (sample.setAspectRatio 2).heightForWidth 3 = truncate (divIntFloat 3 2) ∧
    ⌊((3 : ℤ) : ℚ) / 2⌋ ≤ (sample.setAspectRatio 2).heightForWidth 3 ∧
    (sample.setAspectRatio 2).heightForWidth 3 ≤ ⌈((3 : ℤ) : ℚ) / 2⌉ :=
  let h := heightForWidth_setAspectRatio sample 2 3 (by norm_num)
  let hb := h.2.2 (by norm_num) (by rw [abs_le]; constructor <;> norm_num)
  ⟨h.2.1 (by
      have := sample_div_three
      simp only [sample] at this
      rw [this]
      exact inIntRange_three_halves),
   hb.1, hb.2.1⟩

/-- Out of range: at ratio `1.0` the width `2147483647` becomes the `float` `2 ^ 31`, which
cannot be converted to `int`; `heightForWidth` is then not the truncated quotient. -/
theorem heightForWidth_INT_MAX :
    ¬ InIntRange (divIntFloat 2147483647 1) ∧
    truncate (divIntFloat 2147483647 1) = 2147483648 ∧
    (sample.setAspectRatio 1).heightForWidth 2147483647 = INT_MIN := by
  have hf : toFloat ((2147483647 : ℤ) : ℚ) = 2147483648 := by
    have h := toFloat_eq_of 2147483647 30 16777216 (by norm_num) (by norm_num)
      (by norm_num) (by norm_num)
      (roundHalfEven_eq_of _ _ (by norm_num) (by norm_num))
    push_cast
    rw [h]
    norm_num
  have hq : divIntFloat 2147483647 1 = ((2147483648 : ℤ) : ℚ) := by
    unfold divIntFloat
    rw [hf]
    have h := toFloat_eq_self 1 31 (by norm_num) (by norm_num)
    norm_num at h ⊢
    exact h
  have hnot : ¬ InIntRange (divIntFloat 2147483647 1) := by
    rw [hq]
    unfold InIntRange
    rw [truncate_intCast]
    decide
  refine ⟨hnot, ?_, ?_⟩
  · rw [hq, truncate_intCast]
  · show truncToInt (divIntFloat 2147483647 1) = INT_MIN
    exact truncToInt_eq_INT_MIN hnot

/-- The quotient is rounded to `float` before it is truncated: at ratio `0.1f`,
`heightForWidth(1)` is `10`, while the exact quotient `1 / 0.1f` lies between `9` and `10`. -/
theorem heightForWidth_one_at_one_tenth :
    (sample.setAspectRatio (toFloat (1 / 10))).heightForWidth 1 = 10 ∧
    ⌊((1 : ℤ) : ℚ) / toFloat (1 / 10)⌋ = 9 := by
  constructor
  · show truncToInt (toFloat (toFloat ((1 : ℤ) : ℚ) / toFloat (1 / 10))) = 10
    rw [toFloat_intCast 1 (by norm_num), toFloat_one_tenth]
    have h : (((1 : ℤ) : ℚ) / (13421773 / 134217728)) = 1 / (13421773 / 134217728) := by
      norm_num
    rw [h, toFloat_inv_one_tenth]
    exact truncToInt_intCast 10 (by decide) (by decide)
  · rw [toFloat_one_tenth, Int.floor_eq_iff]
    norm_num

/-- The example of the specification: ratio `2.0` and an available rectangle of `100 x 100`
give the child `100 x 50`, `25` pixels below the top. -/
theorem setGeometry_example_100_100 :
    ((sample.setGeometry (QRect.ofSize 0 0 100 100)).itemAt 0).map
      (fun item => item.geometry) = some (QRect.ofSize 0 25 100 50) := by
  have hw : (QRect.ofSize 0 0 100 100).width = 100 := by decide
  have hh : (QRect.ofSize 0 0 100 100).height = 100 := by decide
  have h1 : truncToInt (divIntFloat 100 sample.m_aspect_ratio) = 50 :=
    sample_div_even 50 (by norm_num)
  have h2 : truncToInt (mulIntFloat 100 sample.m_aspect_ratio) = 200 :=
    sample_mul 100 (by norm_num)
  have hf : sample.fittedSize (QRect.ofSize 0 0 100 100) = ⟨100, 50⟩ := by
    unfold fittedSize
    rw [hw, hh, h1, h2]
    decide
  have hs : sample.m_items = [{ ident := 0, minimumSize := ⟨0, 0⟩, geometry := QRect.null }] :=
    rfl
  unfold setGeometry
  rw [hs]
  simp only [hf, hw, hh]
  decide

end AspectRatioLayout

/-! ## `CheckableMenu`: select all, deselect all -/

namespace CheckableMenu

/-- The item that a registration creates. -/
theorem addItems_spec (regs : List Registration) (m : CheckableMenu) :
    (m.addItems regs).items =
        m.items ++ regs.map (fun r => ⟨r.label, r.is_checked, r.toggle_function⟩) ∧
      (m.addItems regs).select_all_slots =
        m.select_all_slots ++ List.range' m.items.length regs.length ∧
      (m.addItems regs).deselect_all_slots =
        m.deselect_all_slots ++ List.range' m.items.length regs.length ∧
      (m.addItems regs).m_any_action_was_triggered = m.m_any_action_was_triggered := by
  induction regs generalizing m with
  | nil => simp [addItems]
  | cons r regs ih =>
    have h := ih (m.AddItem r.label r.is_checked r.toggle_function)
    have hstep : m.addItems (r :: regs) =
        (m.AddItem r.label r.is_checked r.toggle_function).addItems regs := rfl
    rw [hstep]
    obtain ⟨h1, h2, h3, h4⟩ := h
    refine ⟨?_, ?_, ?_, ?_⟩
    · rw [h1]; simp [AddItem]
    · rw [h2]; simp [AddItem, List.range'_succ]
    · rw [h3]; simp [AddItem, List.range'_succ]
    · rw [h4]; rfl

/-- Running the slots of the items `post`, which follow the items `pre`. -/
theorem runSlots_range' (is_selected : Bool) (post pre : List MenuItem) (m : CheckableMenu)
    (hitems : m.items = pre ++ post) :
    runSlots is_selected (List.range' pre.length post.length) m =
      ({ m with items := pre ++ post.map (fun it => { it with checked := is_selected }) },
       post.flatMap (fun it => [Effect.toggle_function it.toggle_function is_selected,
                                Effect.ItemToggled it.label is_selected])) := by
  induction post generalizing pre m with
  | nil =>
    simp only [List.length_nil, List.range', runSlots, List.map_nil, List.flatMap_nil,
      Prod.mk.injEq, and_true]
    rw [← hitems]
  | cons x post ih =>
    have hget : m.items[pre.length]? = some x := by
      rw [hitems, List.getElem?_append_right (le_refl _)]; simp
    have hset : m.items.set pre.length { x with checked := is_selected } =
        (pre ++ [{ x with checked := is_selected }]) ++ post := by
      rw [hitems]; simp
    have hlen : (pre ++ [({ x with checked := is_selected } : MenuItem)]).length
        = pre.length + 1 := by simp
    have h := ih (pre ++ [{ x with checked := is_selected }])
      { m with items := (pre ++ [{ x with checked := is_selected }]) ++ post } rfl
    rw [hlen] at h
    simp only [List.length_cons, List.range'_succ, runSlots, set_selection_state, hget, hset, h]
    simp

/-- Claim C6.  On a menu built by `n` calls of `AddItem` (any labels, callbacks and initial
checked states), activating the select-all action leaves every item checked and produces, item
after item in the order of registration, the call of the item's callback with `true` followed
by the emission of `ItemToggled(label, true)`, each exactly once; activating the deselect-all
action does the same with `false`. -/
theorem select_all_deselect_all (regs : List Registration) :
    ((CheckableMenu.new.addItems regs).trigger ActionRef.select_all).1.items =
      regs.map (fun r => ⟨r.label, true, r.toggle_function⟩) ∧
    ((CheckableMenu.new.addItems regs).trigger ActionRef.select_all).2 =
      regs.flatMap (fun r => [Effect.toggle_function r.toggle_function true,
                              Effect.ItemToggled r.label true]) ∧
    ((CheckableMenu.new.addItems regs).trigger ActionRef.deselect_all).1.items =
      regs.map (fun r => ⟨r.label, false, r.toggle_function⟩) ∧
    ((CheckableMenu.new.addItems regs).trigger ActionRef.deselect_all).2 =
      regs.flatMap (fun r => [Effect.toggle_function r.toggle_function false,
                              Effect.ItemToggled r.label false]) := by
  obtain ⟨h1, h2, h3, _⟩ := addItems_spec regs CheckableMenu.new
  have hitems : (CheckableMenu.new.addItems regs).items =
      [] ++ regs.map (fun r => (⟨r.label, r.is_checked, r.toggle_function⟩ : MenuItem)) := by
    rw [h1]; rfl
  have hrun := fun b => runSlots_range' b _ [] (CheckableMenu.new.addItems regs) hitems
  simp only [List.length_nil, List.length_map] at hrun
  have hs : (CheckableMenu.new.addItems regs).select_all_slots = List.range' 0 regs.length := by
    rw [h2]; rfl
  have hd : (CheckableMenu.new.addItems regs).deselect_all_slots = List.range' 0 regs.length := by
    rw [h3]; rfl
  simp only [trigger, hs, hd, hrun]
  simp [List.flatMap_map, Function.comp_def]

/-! ## `CheckableMenu`: `leaveEvent` -/

theorem findTopMenu_of_no_menu (chain : List QObjectNode) (pos : ℕ) (top_menu : Option ℕ)
    (h : ∀ p ∈ chain, p.isQMenu = false) : findTopMenu chain pos top_menu = top_menu := by
  induction chain generalizing pos top_menu with
  | nil => rfl
  | cons p chain ih =>
    have hp : p.isQMenu = false := h p (List.mem_cons_self _ _)
    simp only [findTopMenu, hp, Bool.false_eq_true, if_false]
    exact ih _ _ (fun q hq => h q (List.mem_cons_of_mem _ hq))

/-- The walk of `HideMenuTree` ends on the last `QMenu` of the parent chain. -/
theorem findTopMenu_of_last_menu (pre post : List QObjectNode) (top : QObjectNode) (pos : ℕ)
    (top_menu : Option ℕ) (htop : top.isQMenu = true) (hpost : ∀ p ∈ post, p.isQMenu = false) :
    findTopMenu (pre ++ top :: post) pos top_menu = some (pos + pre.length) := by
  induction pre generalizing pos top_menu with
  | nil =>
    simp only [List.nil_append, findTopMenu, htop, if_true, List.length_nil, Nat.add_zero]
    exact findTopMenu_of_no_menu post _ _ hpost
  | cons p pre ih =>
    show findTopMenu (pre ++ top :: post) (pos + 1) _ = some (pos + (pre.length + 1))
    rw [ih]
    congr 1
    omega

/-- Claim C7, the code at the failing input.  This menu is visible, its parent is a `QMenu`
that is not shown, and an action was triggered.  `HideMenuTree` calls `hide()` on the parent
only, which has nothing to close: after the leave event this menu is still visible, the
default leave handling was not invoked, and the flag is cleared. -/
theorem leaveEvent_leaves_menu_visible :
    sampleTriggered.m_any_action_was_triggered = true ∧
    findTopMenu [⟨true, false⟩] 0 none = some 0 ∧
    (sampleTriggered.leaveEvent ⟨true, [⟨true, false⟩]⟩).tree.visible = true ∧
    (sampleTriggered.leaveEvent ⟨true, [⟨true, false⟩]⟩).tree = ⟨true, [⟨true, false⟩]⟩ ∧
    (sampleTriggered.leaveEvent ⟨true, [⟨true, false⟩]⟩).passedToQMenu = false ∧
    (sampleTriggered.leaveEvent ⟨true, [⟨true, false⟩]⟩).menu.m_any_action_was_triggered =
      false := by
  decide

/-- With the parent `QMenu` shown, the same leave event closes the parent and, with it, this
menu. -/
theorem leaveEvent_closes_below_shown_menu :
    (sampleTriggered.leaveEvent ⟨true, [⟨true, true⟩]⟩).tree = ⟨false, [⟨true, false⟩]⟩ ∧
    (sampleTriggered.leaveEvent ⟨true, [⟨false, true⟩, ⟨true, true⟩, ⟨false, true⟩]⟩).tree =
      ⟨false, [⟨false, true⟩, ⟨true, false⟩, ⟨false, true⟩]⟩ := by
  decide

/-- Without the flag, `leaveEvent` hides nothing and hands the event to `QMenu`; with the flag,
it does not, and clears the flag. -/
theorem leaveEvent_flag (m : CheckableMenu) (t : MenuTree) :
    (m.leaveEvent t).menu.m_any_action_was_triggered = false ∧
    (m.m_any_action_was_triggered = false →
      (m.leaveEvent t).passedToQMenu = true ∧ (m.leaveEvent t).tree = t ∧
      (m.leaveEvent t).menu = m) ∧
    (m.m_any_action_was_triggered = true →
      (m.leaveEvent t).passedToQMenu = false ∧ (m.leaveEvent t).tree = HideMenuTree t) := by
  cases hflag : m.m_any_action_was_triggered <;> simp [leaveEvent, hflag]

/-! ## `CheckableMenu`: `keyPressEvent` and `mouseReleaseEvent` -/

/-- Claim C8, as stated, fails.  A press of Enter while no action is active triggers nothing
and is passed to the default `QMenu` handler; a release of the right mouse button over an item
triggers that item, sets the flag and is not passed to the default handler. -/
theorem enter_passed_on_and_right_button_triggers :
    (sample.keyPressEvent Key_Enter none).passedToQMenu = true ∧
    (sample.keyPressEvent Key_Enter none).triggered = none ∧
    (sample.keyPressEvent Key_Enter none).menu.m_any_action_was_triggered = false ∧
    (sample.mouseReleaseEvent ⟨MouseButton.RightButton, (0, 0)⟩
      (fun _ => some (ActionRef.item 0))).triggered = some (ActionRef.item 0) ∧
    (sample.mouseReleaseEvent ⟨MouseButton.RightButton, (0, 0)⟩
      (fun _ => some (ActionRef.item 0))).menu.m_any_action_was_triggered = true ∧
    (sample.mouseReleaseEvent ⟨MouseButton.RightButton, (0, 0)⟩
      (fun _ => some (ActionRef.item 0))).passedToQMenu = false := by
  decide

/-- Claim C8, amended.  A key press of Enter or Return while an action is active, and a mouse
release of any button over an action, each call `trigger()` on that action, set the
action-was-triggered flag and are not passed to the default `QMenu` handler.  Every other key
press, a press of Enter or Return while no action is active, and a mouse release away from
every action are passed to the default `QMenu` handler, trigger no action and leave the menu,
its flag included, unchanged. -/
theorem event_interception (m : CheckableMenu) (key : ℤ) (activeAction : Option ActionRef)
    (event : QMouseEvent) (actionAt : ℤ × ℤ → Option ActionRef) :
    (∀ action, (key = Key_Enter ∨ key = Key_Return) → activeAction = some action →
      (m.keyPressEvent key activeAction).triggered = some action ∧
      (m.keyPressEvent key activeAction).menu =
        { (m.trigger action).1 with m_any_action_was_triggered := true } ∧
      (m.keyPressEvent key activeAction).effects = (m.trigger action).2 ∧
      (m.keyPressEvent key activeAction).passedToQMenu = false) ∧
    (¬ (key = Key_Enter ∨ key = Key_Return) ∨ activeAction = none →
      (m.keyPressEvent key activeAction).triggered = none ∧
      (m.keyPressEvent key activeAction).menu = m ∧
      (m.keyPressEvent key activeAction).effects = [] ∧
      (m.keyPressEvent key activeAction).passedToQMenu = true) ∧
    (∀ action, actionAt event.position = some action →
      (m.mouseReleaseEvent event actionAt).triggered = some action ∧
      (m.mouseReleaseEvent event actionAt).menu =
        { (m.trigger action).1 with m_any_action_was_triggered := true } ∧
      (m.mouseReleaseEvent event actionAt).effects = (m.trigger action).2 ∧
      (m.mouseReleaseEvent event actionAt).passedToQMenu = false) ∧
    (actionAt event.position = none →
      (m.mouseReleaseEvent event actionAt).triggered = none ∧
      (m.mouseReleaseEvent event actionAt).menu = m ∧
      (m.mouseReleaseEvent event actionAt).effects = [] ∧
      (m.mouseReleaseEvent event actionAt).passedToQMenu = true) := by
  refine ⟨?_, ?_, ?_, ?_⟩
  · intro action hkey hactive
    simp only [keyPressEvent, if_pos hkey, hactive, and_self]
  · intro h
    by_cases hkey : key = Key_Enter ∨ key = Key_Return
    · have hnone : activeAction = none := h.resolve_left (not_not.mpr hkey)
      simp only [keyPressEvent, if_pos hkey, hnone, and_self]
    · simp only [keyPressEvent, if_neg hkey, and_self]
  · intro action h
    simp only [mouseReleaseEvent, h, and_self]
  · intro h
    simp only [mouseReleaseEvent, h, and_self]

/-- Witness of `event_interception`: Return on the second item, and a release of the middle
button over the first item. -/
theorem event_interception_witness :
    (sample.keyPressEvent Key_Return (some (ActionRef.item 1))).effects =
      (sample.trigger (ActionRef.item 1)).2 ∧
    (sample.mouseReleaseEvent ⟨MouseButton.MiddleButton, (3, 4)⟩
      (fun _ => some (ActionRef.item 0))).passedToQMenu = false :=
  ⟨((event_interception sample Key_Return (some (ActionRef.item 1))
      ⟨MouseButton.MiddleButton, (3, 4)⟩ (fun _ => some (ActionRef.item 0))).1
      (ActionRef.item 1) (Or.inr rfl) rfl).2.2.1,
   ((event_interception sample Key_Return (some (ActionRef.item 1))
      ⟨MouseButton.MiddleButton, (3, 4)⟩ (fun _ => some (ActionRef.item 0))).2.2.1
      (ActionRef.item 0) rfl).2.2.2⟩

end CheckableMenu

end DolphinQt
